import Mathlib

/-! # counter_ck / urlscan.go : a shallow embedding and its verified properties

The program sweeps a block of IPv4 addresses.  For every host it probes the
six entries of `targetPorts`, fetches the page served on each reachable port,
and reports one `hostResult` per host and one error per failed port.

Conventions of the embedding

* Go `string` values are Lean `String`s, that is sequences of Unicode code
  points: texts that are valid UTF-8.
* Go `int` values are `Int`; the loop counters of `main` are `Nat`.
* The network is an explicit `World`: the outcome of `net.DialTimeout` for an
  address and of `http.Client.Get` for a URL.  Within one run of `spider`
  every address and every URL is used once, so a function is as general as
  a sequence of answers.
* Effects (channel operations, dials, HTTP requests) are recorded, in program
  order, in a trace of `Event`s which every effectful function returns.
-/

namespace Urlscan

/-! ## Library functions used by the program -/

/-- Go `unicode.IsSpace`: the Latin-1 cases spelled out in the Go source, and
    the `White_Space` table above Latin-1. -/
def IsSpace (r : Char) : Bool :=
  if r.val.toNat ≤ 0xFF then
    r = '\t' || r = '\n' || r.val.toNat = 0x0B || r.val.toNat = 0x0C || r = '\r' || r = ' '
      || r.val.toNat = 0x85 || r.val.toNat = 0xA0
  else
    r.val.toNat = 0x1680 || (0x2000 ≤ r.val.toNat && r.val.toNat ≤ 0x200A)
      || r.val.toNat = 0x2028 || r.val.toNat = 0x2029 || r.val.toNat = 0x202F
      || r.val.toNat = 0x205F || r.val.toNat = 0x3000

/-- Go `strings.FieldsFunc`, as one pass over the runes.  The second argument
    plays the part of the variable `start`: `none` outside a field, `some cur`
    inside the field read so far. -/
def fieldsFunc (f : Char → Bool) : List Char → Option (List Char) → List (List Char)
  | [], none => []
  | [], some cur => [cur]
  | c :: cs, none => if f c then fieldsFunc f cs none else fieldsFunc f cs (some [c])
  | c :: cs, some cur =>
      if f c then cur :: fieldsFunc f cs none else fieldsFunc f cs (some (cur ++ [c]))

/-- Go `strings.Fields`: split around runs of white space (`unicode.IsSpace`). -/
def Fields (s : String) : List String :=
  (fieldsFunc IsSpace s.data none).map String.mk

/-- The character-level work of `strings.Join`. -/
def joinChars (sep : List Char) : List (List Char) → List Char
  | [] => []
  | [a] => a
  | a :: b :: rest => a ++ sep ++ joinChars sep (b :: rest)

/-- Go `strings.Join`. -/
def Join (elems : List String) (sep : String) : String :=
  String.mk (joinChars sep.data (elems.map String.data))

/-- Scan for `strings.ReplaceAll` with a non-empty `old`: at each position not
    inside a match just replaced, a match of `old` is replaced by `new`.  The
    counter is the number of characters of the current match still to skip. -/
def replaceAllChars (old new : List Char) : List Char → Nat → List Char
  | [], _ => []
  | _ :: cs, skip + 1 => replaceAllChars old new cs skip
  | c :: cs, 0 =>
      if old <+: (c :: cs) then new ++ replaceAllChars old new cs (old.length - 1)
      else c :: replaceAllChars old new cs 0

/-- Go `strings.ReplaceAll` (non-overlapping matches, left to right).  With an
    empty `old` Go inserts `new` before every rune and at the end. -/
def ReplaceAll (s old new : String) : String :=
  if old.data = [] then
    String.mk (new.data ++ s.data.flatMap (fun c => c :: new.data))
  else
    String.mk (replaceAllChars old.data new.data s.data 0)

/-- Go `net.JoinHostPort`: the host is bracketed when it contains a colon or a
    percent sign. -/
def JoinHostPort (host port : String) : String :=
  if host.data.contains ':' || host.data.contains '%' then "[" ++ host ++ "]:" ++ port
  else host ++ ":" ++ port

/-- Go `strconv.Itoa` and the verb `%d` of package `fmt`: decimal, with a minus
    sign for negative numbers. -/
def Itoa (i : Int) : String := toString i

/-- An `error` value, observed through its method `Error()`. -/
structure GoError where
  msg : String
deriving DecidableEq

/-- A node of a parsed HTML document (package `golang.org/x/net/html`). -/
inductive Node where
  | text (data : String)
  | comment (data : String)
  | element (tag : String) (children : List Node)

mutual
/-- The text of a node as goquery computes it in `Selection.Text`: the data of
    the text nodes below it, in document order. -/
def Node.Text : Node → String
  | .text d => d
  | .comment _ => ""
  | .element _ cs => Node.TextList cs
/-- The concatenated text of a list of sibling nodes. -/
def Node.TextList : List Node → String
  | [] => ""
  | n :: ns => Node.Text n ++ Node.TextList ns
end

mutual
/-- The elements with a given tag among a node and its descendants, in document
    order. -/
def Node.matching (tag : String) : Node → List Node
  | .text _ => []
  | .comment _ => []
  | .element t cs =>
      if t = tag then Node.element t cs :: Node.matchingList tag cs
      else Node.matchingList tag cs
/-- The elements with a given tag in a list of sibling subtrees. -/
def Node.matchingList (tag : String) : List Node → List Node
  | [] => []
  | n :: ns => Node.matching tag n ++ Node.matchingList tag ns
end

/-- A goquery document: the top-level nodes below the document root. -/
structure Document where
  roots : List Node

/-- The goquery call `doc.Find(tag)` for a type selector: the matching
    descendants of the root, in document order. -/
def Document.Find (doc : Document) (tag : String) : List Node :=
  Node.matchingList tag doc.roots

/-- What the program reads of an `http.Response`: the status code, and the body,
    given by what `goquery.NewDocumentFromReader` makes of it (a read error or
    the parsed document). -/
structure Response where
  StatusCode : Int
  Body : Except GoError Document

/-- The network as the program sees it. -/
structure World where
  /-- Outcome of `net.DialTimeout(network, address, timeout)`: whether the
      connection returned is non-nil, and the error returned. -/
  DialTimeout : String → String → Bool × Option GoError
  /-- Outcome of `client.Get(url)`. -/
  Get : String → Except GoError Response

/-! ## Data model of the program -/

/-- An entry of the port table (an anonymous struct in the source). -/
structure PortSpec where
  port : Int
  isHttps : Bool
deriving DecidableEq

/-- The port table of the source. -/
def targetPorts : List PortSpec :=
  [⟨80, false⟩, ⟨443, true⟩, ⟨8080, false⟩, ⟨8443, true⟩, ⟨8000, false⟩, ⟨1080, false⟩]

/-- Capacity of the buffered channel `tokens`. -/
def tokensCap : Nat := 64

/-- The struct `portResult` of the source. -/
structure portResult where
  Port : Int
  Title : String
  Protocol : String
  Code : Int
  BodySummary : String
deriving DecidableEq

/-- The zero value `portResult{}`. -/
def portResult.zero : portResult :=
  { Port := 0, Title := "", Protocol := "", Code := 0, BodySummary := "" }

/-- The struct `hostResult` of the source. -/
structure hostResult where
  Host : String
  isSSHOpen : Bool
  isRDPOpen : Bool
  Results : List portResult
deriving DecidableEq

/-- The steps of the program that a trace records, in program order: the
    operations on the three channels, the dials, the HTTP requests and the calls
    of `checkPage`. -/
inductive Event where
  | tokensSend
  | tokensRecv
  | dial (network address : String)
  | httpGet (url : String)
  | checkPageCall (url host : String) (port : Int)
  | errorsSend (err : GoError)
  | resultsSend (r : hostResult)
deriving DecidableEq

/-! ## The program -/

/-- The function `checkTCPPort` of the source: one dial of `host:port`; true
    exactly when the dial returns no error and a non-nil connection. -/
def checkTCPPort (w : World) (host : String) (port : Int) : Bool × List Event :=
  let address := JoinHostPort host (Itoa port)
  let (conn, err) := w.DialTimeout "tcp" address
  let trace := [Event.dial "tcp" address]
  if err ≠ none then (false, trace)
  else if conn then (true, trace)
  else (false, trace)

/-- Lines 84 to 86 of the source, the normalisation of the body text: remove
    every newline, remove every tab, split into fields, join with one space. -/
def normalise (s : String) : String :=
  let s := ReplaceAll s "\n" ""
  let s := ReplaceAll s "\t" ""
  Join (Fields s) " "

/-- The callback of `doc.Find("title").Each`, run on each matching element in
    turn. -/
def titleEach (result : portResult) (s : Node) : portResult :=
  { result with Title := s.Text }

/-- The callback of `doc.Find("body").Each`, run on each matching element in
    turn. -/
def bodyEach (result : portResult) (s : Node) : portResult :=
  { result with BodySummary := normalise s.Text }

/-- The function `checkPage` of the source.  It returns the pair of the source
    (`none` is the nil error) and the trace of its effects. -/
def checkPage (w : World) (url host : String) (port : Int) :
    (portResult × Option GoError) × List Event :=
  let result : portResult := portResult.zero
  let trace := [Event.checkPageCall url host port]
  let (open_, t) := checkTCPPort w host port
  let trace := trace ++ t
  if !open_ then
    ((portResult.zero, some ⟨host ++ " :port " ++ Itoa port ++ " is closed"⟩), trace)
  else
    let trace := trace ++ [Event.httpGet url]
    match w.Get url with
    | .error err => ((portResult.zero, some err), trace)
    | .ok req =>
      match req.Body with
      | .error err => ((portResult.zero, some err), trace)
      | .ok doc =>
        let result := (doc.Find "title").foldl titleEach result
        let result := (doc.Find "body").foldl bodyEach result
        let result := { result with Code := req.StatusCode }
        ((result, none), trace)

/-- The URL that `spider` builds for a port of the table. -/
def targetURL (ipAddress : String) (port : PortSpec) : String :=
  if port.isHttps then "https://" ++ ipAddress ++ ":" ++ Itoa port.port
  else "http://" ++ ipAddress ++ ":" ++ Itoa port.port

/-- The body of the loop of `spider` over `targetPorts`, on the pair of the
    record under construction and the trace so far.  The test `targetURL[4] ==
    's'` of the source reads the byte at offset 4; `String.get` at byte position
    4 gives the character that starts there, and a character that is not the
    letter s (or no character starting there) means a byte that is not the
    letter s, so the two tests agree on every URL of five bytes or more, which
    every URL built here is. -/
def spiderLoopBody (w : World) (ipAddress : String) (st : hostResult × List Event)
    (port : PortSpec) : hostResult × List Event :=
  let url := targetURL ipAddress port
  let ((result, err), t) := checkPage w url ipAddress port.port
  match err with
  | some e => (st.1, st.2 ++ t ++ [Event.errorsSend e])
  | none =>
    let result :=
      if url.get ⟨4⟩ = 's' then { result with Protocol := "https" }
      else { result with Protocol := "http" }
    let result := { result with Port := port.port }
    ({ st.1 with Results := st.1.Results ++ [result] }, st.2 ++ t)

/-- The function `spider` of the source: the trace of one run. -/
def spider (w : World) (ipAddress : String) : List Event :=
  let host_result : hostResult :=
    { Host := ipAddress, isSSHOpen := false, isRDPOpen := false, Results := [] }
  let trace := [Event.tokensSend]
  let (host_result, trace) := targetPorts.foldl (spiderLoopBody w ipAddress) (host_result, trace)
  let (ssh, t) := checkTCPPort w ipAddress 22
  let host_result := { host_result with isSSHOpen := ssh }
  let trace := trace ++ t
  let (rdp, t) := checkTCPPort w ipAddress 3389
  let host_result := { host_result with isRDPOpen := rdp }
  let trace := trace ++ t
  let trace := trace ++ [Event.tokensRecv]
  trace ++ [Event.resultsSend host_result]

/-- The verb `%t` of package `fmt`. -/
def fmtBool (b : Bool) : String := if b then "true" else "false"

/-- The digit table `hex` of package `encoding/json`. -/
def hex (n : Nat) : Char := "0123456789abcdef".data.getD n '0'

/-- The JSON encoding of one character of a string by `json.Marshal` (HTML
    escaping on): the characters from U+0020 on other than the double quote, the
    ampersand, the angle brackets and the backslash stand for themselves, below
    U+0080; U+2028 and U+2029 are escaped; the rest stands for itself. -/
def jsonChar (c : Char) : List Char :=
  let b := c.val.toNat
  if b < 0x80 then
    if 0x20 ≤ b ∧ b ≠ 0x22 ∧ b ≠ 0x26 ∧ b ≠ 0x3C ∧ b ≠ 0x3E ∧ b ≠ 0x5C then [c]
    else if b = 0x5C ∨ b = 0x22 then [Char.ofNat 0x5C, c]
    else if b = 0x08 then [Char.ofNat 0x5C, 'b']
    else if b = 0x0C then [Char.ofNat 0x5C, 'f']
    else if b = 0x0A then [Char.ofNat 0x5C, 'n']
    else if b = 0x0D then [Char.ofNat 0x5C, 'r']
    else if b = 0x09 then [Char.ofNat 0x5C, 't']
    else [Char.ofNat 0x5C, 'u', '0', '0', hex (b / 16), hex (b % 16)]
  else if b = 0x2028 ∨ b = 0x2029 then [Char.ofNat 0x5C, 'u', '2', '0', '2', hex (b % 16)]
  else [c]

/-- The JSON encoding of a string: the escaped characters between double
    quotes. -/
def jsonString (s : String) : String :=
  String.mk ([Char.ofNat 0x22] ++ s.data.flatMap jsonChar ++ [Char.ofNat 0x22])

/-- The JSON encoding of a `portResult`: all five fields are exported. -/
def jsonPortResult (r : portResult) : String :=
  "\x7b\"Port\":" ++ Itoa r.Port ++ ",\"Title\":" ++ jsonString r.Title
    ++ ",\"Protocol\":" ++ jsonString r.Protocol ++ ",\"Code\":" ++ Itoa r.Code
    ++ ",\"BodySummary\":" ++ jsonString r.BodySummary ++ "\x7d"

/-- Go `json.Marshal` on a `hostResult`.  Only the exported fields `Host` and
    `Results` are encoded; the fields `isSSHOpen` and `isRDPOpen` are unexported
    and skipped.  The error is always nil for this type.  (`Results` is never a
    nil slice here: `spider` starts from an empty non-nil slice.) -/
def jsonMarshal (e : hostResult) : String × Option GoError :=
  ("\x7b\"Host\":" ++ jsonString e.Host ++ ",\"Results\":["
    ++ Join (e.Results.map jsonPortResult) "," ++ "]\x7d", none)

/-- What `printResult` emits: the strings printed on the console and the strings
    written to the file, each in order. -/
structure Output where
  console : List String
  file : List String
deriving DecidableEq

/-- The function `printResult` of the source. -/
def printResult (e : hostResult) : Output :=
  if e.Results.length = 0 then
    { console := ["."], file := [] }
  else
    let console :=
      ["\nResult:\n",
       "\tHost: " ++ e.Host ++ ", ssh " ++ fmtBool e.isSSHOpen ++ ", rdp "
         ++ fmtBool e.isRDPOpen ++ "\n",
       "\tOpen:\n"]
      ++ e.Results.enum.map (fun it =>
          "\t  [" ++ toString it.1 ++ "] port " ++ Itoa it.2.Port ++ ": " ++ it.2.Title ++ "\n")
    match jsonMarshal e with
    | (_, some _) => { console := console, file := [] }
    | (json_str, none) => { console := console, file := [json_str] }

/-- The addresses that `main` hands to `spider`, in the order of the two nested
    loops `for i := 1; i < 255; i++` and `for j := 1; j < 255; j++`. -/
def mainHosts : List String :=
  (List.Ico 1 255).flatMap (fun i =>
    (List.Ico 1 255).map (fun j => "23.96." ++ toString i ++ "." ++ toString j))

/-! ## Reading a trace -/

/-- The records sent on the channel `results`, in order. -/
def published (t : List Event) : List hostResult :=
  t.filterMap (fun e => match e with
    | Event.resultsSend r => some r
    | _ => none)

/-- The errors sent on the channel `errors`, in order. -/
def sentErrors (t : List Event) : List GoError :=
  t.filterMap (fun e => match e with
    | Event.errorsSend err => some err
    | _ => none)

/-- The calls of `checkPage`, in order: URL, host and port. -/
def attempts (t : List Event) : List (String × String × Int) :=
  t.filterMap (fun e => match e with
    | Event.checkPageCall u h p => some (u, h, p)
    | _ => none)

/-- The URLs requested with an HTTP GET, in order. -/
def gets (t : List Event) : List String :=
  t.filterMap (fun e => match e with
    | Event.httpGet u => some u
    | _ => none)

/-- The effect of one event on the number of elements held by the channel
    `tokens`: a send adds one, a receive removes one. -/
def tokensDelta : Event → Int
  | Event.tokensSend => 1
  | Event.tokensRecv => -1
  | _ => 0

/-- The number of elements held by the channel `tokens` after a trace, from a
    given start. -/
def held (start : Int) (t : List Event) : Int :=
  t.foldl (fun n e => n + tokensDelta e) start

/-- One event on the buffered channel `tokens` holding `n` elements: a send
    needs room in the buffer of capacity `tokensCap`, a receive needs an
    element; `none` means that the operation cannot proceed. -/
def tokensStep (n : Nat) : Event → Option Nat
  | Event.tokensSend => if n < tokensCap then some (n + 1) else none
  | Event.tokensRecv => if 0 < n then some (n - 1) else none
  | _ => some n

/-- A trace run on its own against the channel `tokens`, from `n` elements
    held. -/
def tokensRun : Nat → List Event → Option Nat
  | n, [] => some n
  | n, e :: t =>
      match tokensStep n e with
      | some m => tokensRun m t
      | none => none

/-- The message of the error that `checkPage` makes for a closed port. -/
def closedMsg (host : String) (port : Int) : String :=
  host ++ " :port " ++ Itoa port ++ " is closed"

/-- What the loop of `spider` stores for a port whose `checkPage` returned `r`
    without error, as the port table describes it. -/
def stored (p : PortSpec) (r : portResult) : portResult :=
  { Port := p.port, Title := r.Title, Protocol := if p.isHttps then "https" else "http",
    Code := r.Code, BodySummary := r.BodySummary }

/-- The records that one port of the table adds to `Results`: one when
    `checkPage` returns no error, none otherwise. -/
def portResults (w : World) (ip : String) (p : PortSpec) : List portResult :=
  match (checkPage w (targetURL ip p) ip p.port).1 with
  | (r, none) => [stored p r]
  | (_, some _) => []

/-- The errors that one port of the table sends: the error of `checkPage`, if
    any. -/
def portErrors (w : World) (ip : String) (p : PortSpec) : List GoError :=
  match (checkPage w (targetURL ip p) ip p.port).1 with
  | (_, none) => []
  | (_, some e) => [e]

/-- The events of one iteration of the loop of `spider`. -/
def portEvents (w : World) (ip : String) (p : PortSpec) : List Event :=
  (checkPage w (targetURL ip p) ip p.port).2 ++ (portErrors w ip p).map Event.errorsSend

/-! ## Concrete worlds used as test inputs -/

/-- A network on which every dial is refused. -/
def closedWorld : World :=
  { DialTimeout := fun _ _ => (false, some ⟨"connect: connection refused"⟩),
    Get := fun _ => .error ⟨"connect: connection refused"⟩ }

/-- A page with one title element of text "X" and a body element whose text is
    two spaces, a, a tab, b, a newline, a space, c, a space. -/
def pageDoc : Document :=
  ⟨[.element "html"
      [.element "head" [.element "title" [.text "X"]],
       .element "body" [.text "  a\tb\n c "]]]⟩

/-- A network where the host "h" accepts connections on port 80 only and
    serves `pageDoc` there with status 200. -/
def pageWorld : World :=
  { DialTimeout := fun _ address =>
      if address = "h:80" then (true, none) else (false, some ⟨"connect: connection refused"⟩),
    Get := fun _ => .ok ⟨200, .ok pageDoc⟩ }

/-- A page with two title elements, of texts "A" and "B" in document order. -/
def twoTitlesDoc : Document :=
  ⟨[.element "html"
      [.element "head" [.element "title" [.text "A"], .element "title" [.text "B"]],
       .element "body" [.text "hello"]]]⟩

/-- A network where every dial succeeds and every URL serves `twoTitlesDoc`
    with status 200. -/
def twoTitlesWorld : World :=
  { DialTimeout := fun _ _ => (true, none),
    Get := fun _ => .ok ⟨200, .ok twoTitlesDoc⟩ }

/-- A list of fields: each one non-empty and free of separators. -/
def GoodFields (f : Char → Bool) (fs : List (List Char)) : Prop :=
  ∀ x ∈ fs, x ≠ [] ∧ ∀ c ∈ x, f c = false

/-! ## Lemmas on the string functions -/

theorem replaceAllChars_single (c : Char) (s : List Char) :
    replaceAllChars [c] [] s 0 = s.filter (fun x => x != c) := by
  induction s with
  | nil => simp [replaceAllChars]
  | cons a t ih =>
    by_cases h : c = a
    · subst h; simp [replaceAllChars, ih]
    · have h2 : ¬ a = c := fun e => h e.symm
      simp [replaceAllChars, ih, h, h2]

theorem fieldsFunc_good (f : Char → Bool) (s : List Char) :
    GoodFields f (fieldsFunc f s none) ∧
    ∀ cur, cur ≠ [] → (∀ c ∈ cur, f c = false) → GoodFields f (fieldsFunc f s (some cur)) := by
  induction s with
  | nil =>
    refine ⟨by simp [fieldsFunc, GoodFields], ?_⟩
    intro cur h1 h2
    simp [fieldsFunc, GoodFields, h1]
    exact h2
  | cons a t ih =>
    refine ⟨?_, ?_⟩
    · by_cases h : f a = true
      · simp [fieldsFunc, h, ih.1]
      · simp only [fieldsFunc, h]
        apply ih.2 [a] (by simp)
        simpa using h
    · intro cur h1 h2
      by_cases h : f a = true
      · simp only [fieldsFunc, h, if_true]
        intro x hx
        rcases List.mem_cons.mp hx with rfl | hx
        · exact ⟨h1, h2⟩
        · exact ih.1 x hx
      · simp only [fieldsFunc, h]
        apply ih.2 (cur ++ [a]) (by simp)
        intro c hc
        rcases List.mem_append.mp hc with hc | hc
        · exact h2 c hc
        · simp at hc; subst hc; simpa using h

theorem fieldsFunc_word (f : Char → Bool) (w : List Char) (hw : ∀ c ∈ w, f c = false) :
    ∀ (cur rest : List Char),
      fieldsFunc f (w ++ rest) (some cur) = fieldsFunc f rest (some (cur ++ w)) := by
  induction w with
  | nil => intro cur rest; simp
  | cons a t ih =>
    intro cur rest
    have ha : f a = false := hw a (by simp)
    have ht : ∀ c ∈ t, f c = false := fun c hc => hw c (by simp [hc])
    simp [fieldsFunc, ha, ih ht]

theorem fieldsFunc_word_none (f : Char → Bool) (w : List Char) (hne : w ≠ [])
    (hw : ∀ c ∈ w, f c = false) (rest : List Char) :
    fieldsFunc f (w ++ rest) none = fieldsFunc f rest (some w) := by
  cases w with
  | nil => exact absurd rfl hne
  | cons a t =>
    have ha : f a = false := hw a (by simp)
    have ht : ∀ c ∈ t, f c = false := fun c hc => hw c (by simp [hc])
    simp [fieldsFunc, ha, fieldsFunc_word f t ht]

theorem fieldsFunc_joinChars (f : Char → Bool) (sep : Char) (hsep : f sep = true) :
    ∀ fs : List (List Char), GoodFields f fs → fieldsFunc f (joinChars [sep] fs) none = fs := by
  intro fs
  induction fs with
  | nil => intro _; simp [joinChars, fieldsFunc]
  | cons a t ih =>
    intro h
    have ha := h a (by simp)
    have ht : GoodFields f t := fun x hx => h x (by simp [hx])
    cases t with
    | nil =>
      have := fieldsFunc_word_none f a ha.1 ha.2 []
      simp only [List.append_nil] at this
      simp [joinChars, this, fieldsFunc]
    | cons b r =>
      simp only [joinChars, List.append_assoc]
      rw [fieldsFunc_word_none f a ha.1 ha.2]
      simp only [List.singleton_append, fieldsFunc, hsep, if_true]
      show a :: fieldsFunc f (joinChars [sep] (b :: r)) none = a :: b :: r
      rw [ih ht]

theorem joinChars_mem (sep : Char) (fs : List (List Char)) (c : Char)
    (h : c ∈ joinChars [sep] fs) : c = sep ∨ ∃ x ∈ fs, c ∈ x := by
  induction fs with
  | nil => simp [joinChars] at h
  | cons a t ih =>
    cases t with
    | nil => right; exact ⟨a, by simp, by simpa [joinChars] using h⟩
    | cons b r =>
      simp only [joinChars, List.append_assoc, List.mem_append, List.mem_singleton] at h
      rcases h with h | h | h
      · right; exact ⟨a, by simp, h⟩
      · left; exact h
      · rcases ih h with h | ⟨x, hx, hc⟩
        · left; exact h
        · right; exact ⟨x, by simp [hx], hc⟩

theorem normalise_data (s : String) :
    (normalise s).data = joinChars [' '] (fieldsFunc IsSpace
      ((s.data.filter (fun x => x != '\n')).filter (fun x => x != '\t')) none) := by
  have h1 : ("\n" : String).data = ['\n'] := rfl
  have h2 : ("\t" : String).data = ['\t'] := rfl
  have h3 : ("" : String).data = [] := rfl
  have h4 : (" " : String).data = [' '] := rfl
  simp [normalise, ReplaceAll, Join, Fields, h1, h2, h3, h4, replaceAllChars_single,
    List.map_map, Function.comp_def]

/-- C3: the normalisation of the body summary (remove every newline, remove
    every tab, split into fields at white space, join the fields with single
    spaces) is idempotent: normalising a normalised string gives it back. -/
theorem C3_normalise_idempotent (s : String) : normalise (normalise s) = normalise s := by
  apply String.ext
  rw [normalise_data (normalise s)]
  generalize hfs : fieldsFunc IsSpace
      ((s.data.filter (fun x => x != '\n')).filter (fun x => x != '\t')) none = fs
  have hd := normalise_data s
  rw [hfs] at hd
  have hg : GoodFields IsSpace fs := hfs ▸ (fieldsFunc_good IsSpace _).1
  have hno : ∀ c, IsSpace c = true → c ≠ ' ' → c ∉ joinChars [' '] fs := by
    intro c hc hne hmem
    rcases joinChars_mem ' ' fs c hmem with h | ⟨x, hx, hcx⟩
    · exact hne h
    · have := (hg x hx).2 c hcx
      rw [hc] at this; exact Bool.noConfusion this
  rw [hd]
  have e1 : (joinChars [' '] fs).filter (fun x => x != '\n') = joinChars [' '] fs := by
    apply List.filter_eq_self.mpr
    intro a ha
    simp only [bne_iff_ne, ne_eq]
    rintro rfl
    exact hno '\n' (by decide) (by decide) ha
  have e2 : (joinChars [' '] fs).filter (fun x => x != '\t') = joinChars [' '] fs := by
    apply List.filter_eq_self.mpr
    intro a ha
    simp only [bne_iff_ne, ne_eq]
    rintro rfl
    exact hno '\t' (by decide) (by decide) ha
  rw [e1, e2, fieldsFunc_joinChars IsSpace ' ' (by decide) fs hg]

/-! ## Lemmas on the program -/

theorem checkTCPPort_trace (w : World) (host : String) (port : Int) :
    (checkTCPPort w host port).2 = [Event.dial "tcp" (JoinHostPort host (Itoa port))] := by
  unfold checkTCPPort
  simp only
  split <;> [rfl; (split <;> rfl)]

theorem targetURL_get (ip : String) (p : PortSpec) :
    ((targetURL ip p).get ⟨4⟩ = 's') ↔ p.isHttps = true := by
  cases p with
  | mk port isHttps =>
    cases isHttps with
    | true =>
      simp only [targetURL, if_true, iff_true]
      rfl
    | false =>
      simp only [targetURL, Bool.false_eq_true, if_false, iff_false]
      have : (("http://" ++ ip ++ ":" ++ Itoa port).get ⟨4⟩) = ':' := rfl
      rw [this]; decide

/-- The trace of `checkPage` always starts with the call and the dial; a GET
    follows exactly when the port is open. -/
theorem checkPage_trace (w : World) (url host : String) (port : Int) :
    (checkPage w url host port).2 =
      [Event.checkPageCall url host port, Event.dial "tcp" (JoinHostPort host (Itoa port))]
        ++ (if (checkTCPPort w host port).1 then [Event.httpGet url] else []) := by
  have ht := checkTCPPort_trace w host port
  unfold checkPage
  rcases hc : checkTCPPort w host port with ⟨o, t⟩
  rw [hc] at ht
  simp only at ht
  subst ht
  cases o with
  | false => simp
  | true =>
    simp only [Bool.not_true, Bool.false_eq_true, if_false, if_true]
    split
    · rfl
    · split <;> rfl

theorem checkPage_closed (w : World) (url host : String) (port : Int)
    (h : (checkTCPPort w host port).1 = false) :
    (checkPage w url host port).1 = (portResult.zero, some ⟨closedMsg host port⟩) := by
  unfold checkPage
  rcases hc : checkTCPPort w host port with ⟨o, t⟩
  rw [hc] at h
  simp only at h
  subst h
  simp [closedMsg]

theorem spiderLoopBody_eq (w : World) (ip : String) (st : hostResult × List Event)
    (p : PortSpec) :
    spiderLoopBody w ip st p =
      ({ st.1 with Results := st.1.Results ++ portResults w ip p }, st.2 ++ portEvents w ip p) := by
  unfold spiderLoopBody portResults portEvents portErrors
  rcases hc : checkPage w (targetURL ip p) ip p.port with ⟨⟨r, err⟩, t⟩
  simp only [hc]
  cases err with
  | some e => simp
  | none =>
    have hp := targetURL_get ip p
    cases hh : p.isHttps with
    | true =>
      have : (targetURL ip p).get ⟨4⟩ = 's' := hp.mpr hh
      simp [this, stored, hh]
    | false =>
      have : ¬ (targetURL ip p).get ⟨4⟩ = 's' := fun h => by
        have := hp.mp h; rw [hh] at this; exact Bool.noConfusion this
      simp [this, stored, hh]

theorem spiderLoop_eq (w : World) (ip : String) (ps : List PortSpec) :
    ∀ st : hostResult × List Event,
      ps.foldl (spiderLoopBody w ip) st =
        ({ st.1 with Results := st.1.Results ++ ps.flatMap (portResults w ip) },
          st.2 ++ ps.flatMap (portEvents w ip)) := by
  induction ps with
  | nil => intro st; simp
  | cons p t ih =>
    intro st
    rw [List.foldl_cons, ih, spiderLoopBody_eq]
    simp [List.append_assoc]

theorem spider_shape (evs : List Event) (rs : List portResult) (d1 d2 : Event) (a b : Bool)
    (ip : String) :
    [Event.tokensSend] ++ evs ++ [d1] ++ [d2] ++ [Event.tokensRecv] ++
      [Event.resultsSend { Host := ip, isSSHOpen := a, isRDPOpen := b, Results := [] ++ rs }] =
    Event.tokensSend :: (evs ++ [d1, d2]) ++
      [Event.tokensRecv,
        Event.resultsSend { Host := ip, isSSHOpen := a, isRDPOpen := b, Results := rs }] := by
  simp

theorem spider_eq (w : World) (ip : String) :
    spider w ip =
      Event.tokensSend :: (targetPorts.flatMap (portEvents w ip)
        ++ [Event.dial "tcp" (JoinHostPort ip (Itoa 22)),
            Event.dial "tcp" (JoinHostPort ip (Itoa 3389))])
        ++ [Event.tokensRecv,
            Event.resultsSend
              { Host := ip, isSSHOpen := (checkTCPPort w ip 22).1,
                isRDPOpen := (checkTCPPort w ip 3389).1,
                Results := targetPorts.flatMap (portResults w ip) }] := by
  have h1 := checkTCPPort_trace w ip 22
  have h2 := checkTCPPort_trace w ip 3389
  unfold spider
  dsimp only
  rw [spiderLoop_eq]
  rcases hc1 : checkTCPPort w ip 22 with ⟨a, ta⟩
  rcases hc2 : checkTCPPort w ip 3389 with ⟨b, tb⟩
  rw [hc1] at h1
  rw [hc2] at h2
  dsimp only at h1 h2 ⊢
  subst h1
  subst h2
  exact spider_shape _ _ _ _ _ _ _

/-! ## Reading the trace of `spider` -/

theorem attempts_append (a b : List Event) : attempts (a ++ b) = attempts a ++ attempts b := by
  simp [attempts]

theorem sentErrors_append (a b : List Event) :
    sentErrors (a ++ b) = sentErrors a ++ sentErrors b := by
  simp [sentErrors]

theorem published_append (a b : List Event) :
    published (a ++ b) = published a ++ published b := by
  simp [published]

theorem gets_append (a b : List Event) : gets (a ++ b) = gets a ++ gets b := by
  simp [gets]

theorem sentErrors_map (es : List GoError) : sentErrors (es.map Event.errorsSend) = es := by
  induction es with
  | nil => rfl
  | cons e t ih =>
    have : sentErrors (Event.errorsSend e :: t.map Event.errorsSend)
        = e :: sentErrors (t.map Event.errorsSend) := rfl
    rw [List.map_cons, this, ih]

theorem attempts_map (es : List GoError) : attempts (es.map Event.errorsSend) = [] := by
  induction es with
  | nil => rfl
  | cons e t ih =>
    have : attempts (Event.errorsSend e :: t.map Event.errorsSend)
        = attempts (t.map Event.errorsSend) := rfl
    rw [List.map_cons, this, ih]

theorem published_map (es : List GoError) : published (es.map Event.errorsSend) = [] := by
  induction es with
  | nil => rfl
  | cons e t ih =>
    have : published (Event.errorsSend e :: t.map Event.errorsSend)
        = published (t.map Event.errorsSend) := rfl
    rw [List.map_cons, this, ih]

theorem attempts_checkPage (w : World) (url host : String) (port : Int) :
    attempts (checkPage w url host port).2 = [(url, host, port)] := by
  rw [checkPage_trace]
  cases (checkTCPPort w host port).1 <;> rfl

theorem sentErrors_checkPage (w : World) (url host : String) (port : Int) :
    sentErrors (checkPage w url host port).2 = [] := by
  rw [checkPage_trace]
  cases (checkTCPPort w host port).1 <;> rfl

theorem published_checkPage (w : World) (url host : String) (port : Int) :
    published (checkPage w url host port).2 = [] := by
  rw [checkPage_trace]
  cases (checkTCPPort w host port).1 <;> rfl

theorem attempts_portEvents (w : World) (ip : String) (p : PortSpec) :
    attempts (portEvents w ip p) = [(targetURL ip p, ip, p.port)] := by
  rw [portEvents, attempts_append, attempts_checkPage, attempts_map, List.append_nil]

theorem sentErrors_portEvents (w : World) (ip : String) (p : PortSpec) :
    sentErrors (portEvents w ip p) = portErrors w ip p := by
  rw [portEvents, sentErrors_append, sentErrors_checkPage, sentErrors_map, List.nil_append]

theorem published_portEvents (w : World) (ip : String) (p : PortSpec) :
    published (portEvents w ip p) = [] := by
  rw [portEvents, published_append, published_checkPage, published_map, List.append_nil]

theorem attempts_loop (w : World) (ip : String) (ps : List PortSpec) :
    attempts (ps.flatMap (portEvents w ip)) = ps.map (fun p => (targetURL ip p, ip, p.port)) := by
  induction ps with
  | nil => rfl
  | cons p t ih => rw [List.flatMap_cons, attempts_append, attempts_portEvents, ih]; rfl

theorem sentErrors_loop (w : World) (ip : String) (ps : List PortSpec) :
    sentErrors (ps.flatMap (portEvents w ip)) = ps.flatMap (portErrors w ip) := by
  induction ps with
  | nil => rfl
  | cons p t ih => rw [List.flatMap_cons, sentErrors_append, sentErrors_portEvents, ih]; rfl

theorem published_loop (w : World) (ip : String) (ps : List PortSpec) :
    published (ps.flatMap (portEvents w ip)) = [] := by
  induction ps with
  | nil => rfl
  | cons p t ih => rw [List.flatMap_cons, published_append, published_portEvents, ih]; rfl

/-- One port gives one record or one error, not both and not neither. -/
theorem port_one (w : World) (ip : String) (p : PortSpec) :
    (∃ r, portResults w ip p = [r] ∧ portErrors w ip p = []) ∨
    (∃ e, portResults w ip p = [] ∧ portErrors w ip p = [e]) := by
  unfold portResults portErrors
  rcases (checkPage w (targetURL ip p) ip p.port).1 with ⟨r, _ | e⟩
  · exact Or.inl ⟨_, rfl, rfl⟩
  · exact Or.inr ⟨_, rfl, rfl⟩

theorem loop_count (w : World) (ip : String) (ps : List PortSpec) :
    (ps.flatMap (portResults w ip)).length + (ps.flatMap (portErrors w ip)).length
      = ps.length := by
  induction ps with
  | nil => rfl
  | cons p t ih =>
    rw [List.flatMap_cons, List.flatMap_cons, List.length_append, List.length_append,
      List.length_cons]
    rcases port_one w ip p with ⟨r, h1, h2⟩ | ⟨e, h1, h2⟩ <;> rw [h1, h2] <;>
      simp only [List.length_cons, List.length_nil] <;> omega

theorem attempts_shape (evs : List Event) (n1 a1 n2 a2 : String) (hr : hostResult) :
    attempts (Event.tokensSend :: (evs ++ [Event.dial n1 a1, Event.dial n2 a2])
      ++ [Event.tokensRecv, Event.resultsSend hr]) = attempts evs := by
  simp [attempts]

theorem sentErrors_shape (evs : List Event) (n1 a1 n2 a2 : String) (hr : hostResult) :
    sentErrors (Event.tokensSend :: (evs ++ [Event.dial n1 a1, Event.dial n2 a2])
      ++ [Event.tokensRecv, Event.resultsSend hr]) = sentErrors evs := by
  simp [sentErrors]

theorem published_shape (evs : List Event) (n1 a1 n2 a2 : String) (hr : hostResult) :
    published (Event.tokensSend :: (evs ++ [Event.dial n1 a1, Event.dial n2 a2])
      ++ [Event.tokensRecv, Event.resultsSend hr]) = published evs ++ [hr] := by
  simp [published]

/-- The record that `spider` publishes. -/
theorem published_spider (w : World) (ip : String) :
    published (spider w ip) =
      [{ Host := ip, isSSHOpen := (checkTCPPort w ip 22).1,
         isRDPOpen := (checkTCPPort w ip 3389).1,
         Results := targetPorts.flatMap (portResults w ip) }] := by
  rw [spider_eq, published_shape, published_loop, List.nil_append]

theorem sentErrors_spider (w : World) (ip : String) :
    sentErrors (spider w ip) = targetPorts.flatMap (portErrors w ip) := by
  rw [spider_eq, sentErrors_shape, sentErrors_loop]

theorem attempts_spider (w : World) (ip : String) :
    attempts (spider w ip) = targetPorts.map (fun p => (targetURL ip p, ip, p.port)) := by
  rw [spider_eq, attempts_shape, attempts_loop]

/-! ## The claims -/

/-- C1: one run of `spider` calls `checkPage` exactly six times, once for each
    entry of `targetPorts` in order; it publishes one record, and the length of
    its `Results` plus the number of errors sent is six; and each iteration of
    the loop makes one call and either appends exactly one record and sends no
    error, or sends exactly one error and appends no record. -/
theorem C1_every_attempt_accounted (w : World) (ip : String) :
    attempts (spider w ip) = targetPorts.map (fun p => (targetURL ip p, ip, p.port)) ∧
    (attempts (spider w ip)).length = 6 ∧
    (∃ hr, published (spider w ip) = [hr] ∧
      hr.Results.length + (sentErrors (spider w ip)).length = 6) ∧
    (∀ (st : hostResult × List Event) (p : PortSpec),
      attempts (spiderLoopBody w ip st p).2 = attempts st.2 ++ [(targetURL ip p, ip, p.port)] ∧
      ((∃ r, (spiderLoopBody w ip st p).1.Results = st.1.Results ++ [r] ∧
          sentErrors (spiderLoopBody w ip st p).2 = sentErrors st.2) ∨
       (∃ e, (spiderLoopBody w ip st p).1.Results = st.1.Results ∧
          sentErrors (spiderLoopBody w ip st p).2 = sentErrors st.2 ++ [e]))) := by
  refine ⟨attempts_spider w ip, ?_, ?_, ?_⟩
  · rw [attempts_spider, List.length_map]; rfl
  · refine ⟨_, published_spider w ip, ?_⟩
    rw [sentErrors_spider]
    exact loop_count w ip targetPorts
  · intro st p
    rw [spiderLoopBody_eq]
    refine ⟨?_, ?_⟩
    · show attempts (st.2 ++ portEvents w ip p) = _
      rw [attempts_append, attempts_portEvents]
    · show (∃ r, st.1.Results ++ portResults w ip p = st.1.Results ++ [r] ∧
          sentErrors (st.2 ++ portEvents w ip p) = sentErrors st.2) ∨
        (∃ e, st.1.Results ++ portResults w ip p = st.1.Results ∧
          sentErrors (st.2 ++ portEvents w ip p) = sentErrors st.2 ++ [e])
      rw [sentErrors_append, sentErrors_portEvents]
      rcases port_one w ip p with ⟨r, h1, h2⟩ | ⟨e, h1, h2⟩
      · left; exact ⟨r, by rw [h1], by rw [h2, List.append_nil]⟩
      · right; exact ⟨e, by rw [h1, List.append_nil], by rw [h2]⟩

theorem portResults_closed (w : World) (ip : String) (p : PortSpec)
    (h : (checkTCPPort w ip p.port).1 = false) :
    portResults w ip p = [] ∧ portErrors w ip p = [⟨closedMsg ip p.port⟩] := by
  unfold portResults portErrors
  rw [checkPage_closed w _ ip p.port h]
  exact ⟨rfl, rfl⟩

theorem gets_checkPage_closed (w : World) (url host : String) (port : Int)
    (h : (checkTCPPort w host port).1 = false) : gets (checkPage w url host port).2 = [] := by
  rw [checkPage_trace, h]
  rfl

theorem gets_map (es : List GoError) : gets (es.map Event.errorsSend) = [] := by
  induction es with
  | nil => rfl
  | cons e t ih =>
    have : gets (Event.errorsSend e :: t.map Event.errorsSend)
        = gets (t.map Event.errorsSend) := rfl
    rw [List.map_cons, this, ih]

theorem mem_portResults_port (w : World) (ip : String) (p : PortSpec) (r : portResult)
    (h : r ∈ portResults w ip p) : r.Port = p.port := by
  unfold portResults at h
  generalize (checkPage w (targetURL ip p) ip p.port).1 = c at h
  rcases c with ⟨r0, _ | e⟩
  · rw [List.mem_singleton.mp h]; rfl
  · exact absurd h (List.not_mem_nil _)

/-- C2: when `checkTCPPort` reports false for a host and port, `checkPage`
    returns the zero `portResult` with the error whose message is the host,
    " :port ", the port in decimal and " is closed", and requests no URL; the
    iteration of the loop of `spider` for that port leaves the record as it was
    and sends exactly that one error; and the record that `spider` publishes has
    no `portResult` for that port. -/
theorem C2_closed_port (w : World) (host : String) (port : Int)
    (h : (checkTCPPort w host port).1 = false) :
    (∀ url, (checkPage w url host port).1 =
        (portResult.zero, some ⟨host ++ " :port " ++ Itoa port ++ " is closed"⟩) ∧
      gets (checkPage w url host port).2 = []) ∧
    (∀ (st : hostResult × List Event) (isHttps : Bool),
      (spiderLoopBody w host st ⟨port, isHttps⟩).1 = st.1 ∧
      sentErrors (spiderLoopBody w host st ⟨port, isHttps⟩).2 =
        sentErrors st.2 ++ [⟨host ++ " :port " ++ Itoa port ++ " is closed"⟩] ∧
      gets (spiderLoopBody w host st ⟨port, isHttps⟩).2 = gets st.2) ∧
    (∀ hr ∈ published (spider w host), ∀ r ∈ hr.Results, r.Port ≠ port) := by
  refine ⟨fun url => ⟨checkPage_closed w url host port h, gets_checkPage_closed w url host port h⟩,
    ?_, ?_⟩
  · intro st isHttps
    have hp := portResults_closed w host ⟨port, isHttps⟩ h
    rw [spiderLoopBody_eq]
    refine ⟨?_, ?_, ?_⟩
    · show ({ st.1 with Results := st.1.Results ++ portResults w host ⟨port, isHttps⟩ }
        : hostResult) = st.1
      rw [hp.1, List.append_nil]
    · show sentErrors (st.2 ++ portEvents w host ⟨port, isHttps⟩) = _
      rw [sentErrors_append, sentErrors_portEvents, hp.2]
      rfl
    · show gets (st.2 ++ portEvents w host ⟨port, isHttps⟩) = _
      rw [gets_append, portEvents, gets_append, gets_map,
        gets_checkPage_closed w _ host port h]
      simp
  · intro hr hhr r hr_mem hport
    rw [published_spider, List.mem_singleton] at hhr
    subst hhr
    obtain ⟨p, _, hp⟩ := List.mem_flatMap.mp hr_mem
    have e1 := mem_portResults_port w host p r hp
    have hc : (checkTCPPort w host p.port).1 = false := by rw [← e1, hport]; exact h
    rw [(portResults_closed w host p hc).1] at hp
    exact List.not_mem_nil _ hp

/-- C2 at a concrete input: port 80 of a host that refuses every dial. -/
theorem C2_closed_port_witness :
    (checkTCPPort closedWorld "23.96.1.1" 80).1 = false ∧
    (checkPage closedWorld "http://23.96.1.1:80" "23.96.1.1" 80).1 =
      (portResult.zero, some ⟨"23.96.1.1 :port 80 is closed"⟩) ∧
    gets (checkPage closedWorld "http://23.96.1.1:80" "23.96.1.1" 80).2 = [] :=
  ⟨rfl, (C2_closed_port closedWorld "23.96.1.1" 80 rfl).1 "http://23.96.1.1:80"⟩

theorem loop_filterMap (w : World) (ip : String) (ps : List PortSpec) :
    ps.flatMap (portResults w ip) = ps.filterMap (fun p =>
      match (checkPage w (targetURL ip p) ip p.port).1 with
      | (r, none) => some (stored p r)
      | (_, some _) => none) := by
  induction ps with
  | nil => rfl
  | cons p t ih =>
    rw [List.flatMap_cons, ih, List.filterMap_cons]
    unfold portResults
    rcases (checkPage w (targetURL ip p) ip p.port).1 with ⟨r, _ | e⟩ <;> rfl

/-- C6: the `Results` of the record that `spider` publishes is the port table
    (80, 443, 8080, 8443, 8000, 1080), in its order, restricted to the entries
    whose `checkPage` returned no error; each element has the `Title`, `Code`
    and `BodySummary` that `checkPage` returned, the port of its entry, and the
    protocol "https" when the entry has `isHttps` and "http" otherwise. -/
theorem C6_results_follow_table (w : World) (ip : String) :
    targetPorts.map (fun p => p.port) = [80, 443, 8080, 8443, 8000, 1080] ∧
    published (spider w ip) =
      [{ Host := ip, isSSHOpen := (checkTCPPort w ip 22).1,
         isRDPOpen := (checkTCPPort w ip 3389).1,
         Results := targetPorts.filterMap (fun p =>
           match (checkPage w (targetURL ip p) ip p.port).1 with
           | (r, none) =>
               some { Port := p.port, Title := r.Title,
                      Protocol := if p.isHttps then "https" else "http",
                      Code := r.Code, BodySummary := r.BodySummary }
           | (_, some _) => none) }] := by
  refine ⟨rfl, ?_⟩
  rw [published_spider, loop_filterMap]
  rfl

theorem held_eq_sum (t : List Event) :
    ∀ start : Int, held start t = start + (t.map tokensDelta).sum := by
  induction t with
  | nil => intro start; simp [held]
  | cons e t ih =>
    intro start
    have : held start (e :: t) = held (start + tokensDelta e) t := rfl
    rw [this, ih, List.map_cons, List.sum_cons, add_assoc]

theorem delta_portEvents (w : World) (ip : String) (p : PortSpec) :
    ∀ e ∈ portEvents w ip p, tokensDelta e = 0 := by
  intro e he
  rw [portEvents, checkPage_trace] at he
  rcases List.mem_append.mp he with h | h
  · rcases List.mem_append.mp h with h | h
    · simp only [List.mem_cons, List.mem_singleton, List.not_mem_nil, or_false] at h
      rcases h with rfl | rfl <;> rfl
    · split at h
      · rw [List.mem_singleton.mp h]; rfl
      · exact absurd h (List.not_mem_nil _)
  · obtain ⟨x, _, rfl⟩ := List.mem_map.mp h
    rfl

theorem delta_loop (w : World) (ip : String) (ps : List PortSpec) :
    ∀ e ∈ ps.flatMap (portEvents w ip), tokensDelta e = 0 := by
  intro e he
  obtain ⟨p, _, hp⟩ := List.mem_flatMap.mp he
  exact delta_portEvents w ip p e hp

theorem delta_mid (evs : List Event) (h : ∀ e ∈ evs, tokensDelta e = 0) (n1 a1 n2 a2 : String) :
    ∀ e ∈ evs ++ [Event.dial n1 a1, Event.dial n2 a2], tokensDelta e = 0 := by
  intro e he
  rcases List.mem_append.mp he with h1 | h1
  · exact h e h1
  · simp only [List.mem_cons, List.mem_singleton, List.not_mem_nil, or_false] at h1
    rcases h1 with rfl | rfl <;> rfl

theorem sum_zero (l : List Event) (h : ∀ e ∈ l, tokensDelta e = 0) :
    (l.map tokensDelta).sum = 0 := by
  induction l with
  | nil => rfl
  | cons a t ih =>
    rw [List.map_cons, List.sum_cons, h a (List.mem_cons_self _ _),
      ih (fun e he => h e (List.mem_cons_of_mem _ he)), add_zero]

theorem sum_shape (mid : List Event) (h : ∀ e ∈ mid, tokensDelta e = 0) (hr : hostResult) :
    ((Event.tokensSend :: mid ++ [Event.tokensRecv, Event.resultsSend hr]).map tokensDelta).sum
      = 0 := by
  rw [List.cons_append, List.map_cons, List.sum_cons, List.map_append, List.sum_append,
    sum_zero mid h]
  rfl

theorem count_shape (mid : List Event) (h : ∀ e ∈ mid, tokensDelta e = 0) (hr : hostResult) :
    (Event.tokensSend :: mid ++ [Event.tokensRecv, Event.resultsSend hr]).count Event.tokensSend
      = 1 ∧
    (Event.tokensSend :: mid ++ [Event.tokensRecv, Event.resultsSend hr]).count Event.tokensRecv
      = 1 := by
  have h1 : Event.tokensSend ∉ mid := fun hm => absurd (h _ hm) (by decide)
  have h2 : Event.tokensRecv ∉ mid := fun hm => absurd (h _ hm) (by decide)
  constructor
  · rw [List.cons_append, List.count_cons_self, List.count_append,
      List.count_eq_zero_of_not_mem h1]
    rfl
  · rw [List.cons_append, List.count_cons_of_ne (by decide), List.count_append,
      List.count_eq_zero_of_not_mem h2]
    rfl

theorem sum_spider (w : World) (ip : String) : ((spider w ip).map tokensDelta).sum = 0 := by
  rw [spider_eq]
  exact sum_shape _ (delta_mid _ (delta_loop w ip targetPorts) _ _ _ _) _

theorem sum_runs (runs : List (World × String)) :
    ((runs.flatMap (fun r => spider r.1 r.2)).map tokensDelta).sum = 0 := by
  induction runs with
  | nil => rfl
  | cons r t ih =>
    rw [List.flatMap_cons, List.map_append, List.sum_append, sum_spider, ih, add_zero]

theorem tokensStep_neutral (n : Nat) (e : Event) (h : tokensDelta e = 0) :
    tokensStep n e = some n := by
  cases e <;> first | rfl | exact absurd h (by decide)

theorem tokensRun_cons (n m : Nat) (e : Event) (t : List Event) (h : tokensStep n e = some m) :
    tokensRun n (e :: t) = tokensRun m t := by
  rw [tokensRun, h]

theorem tokensRun_neutral (l : List Event) (h : ∀ e ∈ l, tokensDelta e = 0) (rest : List Event)
    (n : Nat) : tokensRun n (l ++ rest) = tokensRun n rest := by
  induction l with
  | nil => rfl
  | cons a t ih =>
    rw [List.cons_append,
      tokensRun_cons n n a _ (tokensStep_neutral n a (h a (List.mem_cons_self _ _)))]
    exact ih (fun e he => h e (List.mem_cons_of_mem _ he))

theorem tokensRun_shape (mid : List Event) (h : ∀ e ∈ mid, tokensDelta e = 0) (hr : hostResult)
    (rest : List Event) (n : Nat) (hn : n < tokensCap) :
    tokensRun n ((Event.tokensSend :: mid ++ [Event.tokensRecv, Event.resultsSend hr]) ++ rest)
      = tokensRun n rest := by
  have h1 : tokensStep n Event.tokensSend = some (n + 1) := if_pos hn
  have h2 : tokensStep (n + 1) Event.tokensRecv = some n := if_pos (Nat.succ_pos n)
  rw [List.cons_append, List.cons_append, tokensRun_cons n (n + 1) _ _ h1, List.append_assoc,
    tokensRun_neutral mid h, List.cons_append, tokensRun_cons (n + 1) n _ _ h2,
    List.cons_append, tokensRun_cons n n (Event.resultsSend hr) _ rfl]
  rfl

theorem tokensRun_runs (runs : List (World × String)) (n : Nat) (hn : n < tokensCap) :
    tokensRun n (runs.flatMap (fun r => spider r.1 r.2)) = some n := by
  induction runs with
  | nil => rfl
  | cons r t ih =>
    rw [List.flatMap_cons, spider_eq,
      tokensRun_shape _ (delta_mid _ (delta_loop r.1 r.2 targetPorts) _ _ _ _) _ _ n hn]
    exact ih

/-- C7: the trace of one run of `spider` is the send on `tokens`, then a middle
    part with no operation on `tokens`, then the receive from `tokens`, then the
    publication of the record; the middle part holds the six calls of
    `checkPage` and ends with the dials of ports 22 and 3389.  So a run sends
    once and receives once; after the runs of any hosts on any networks,
    interleaved in any way, `tokens` holds as many elements as at the start;
    and runs made one after the other from a channel that is not full all
    proceed and leave the channel as it was. -/
theorem C7_gate_balanced (w : World) (ip : String) :
    (∃ mid hr,
      spider w ip = Event.tokensSend :: mid ++ [Event.tokensRecv, Event.resultsSend hr] ∧
      Event.tokensSend ∉ mid ∧ Event.tokensRecv ∉ mid ∧
      attempts mid = targetPorts.map (fun p => (targetURL ip p, ip, p.port)) ∧
      [Event.dial "tcp" (JoinHostPort ip (Itoa 22)),
        Event.dial "tcp" (JoinHostPort ip (Itoa 3389))] <:+ mid) ∧
    (spider w ip).count Event.tokensSend = 1 ∧
    (spider w ip).count Event.tokensRecv = 1 ∧
    (∀ (runs : List (World × String)) (t : List Event) (start : Int),
      t.Perm (runs.flatMap (fun r => spider r.1 r.2)) → held start t = start) ∧
    (∀ (runs : List (World × String)) (n : Nat), n < tokensCap →
      tokensRun n (runs.flatMap (fun r => spider r.1 r.2)) = some n) := by
  have hmid := delta_mid _ (delta_loop w ip targetPorts) "tcp" (JoinHostPort ip (Itoa 22))
    "tcp" (JoinHostPort ip (Itoa 3389))
  refine ⟨⟨_, _, spider_eq w ip, fun hm => absurd (hmid _ hm) (by decide),
    fun hm => absurd (hmid _ hm) (by decide), ?_, List.suffix_append _ _⟩, ?_, ?_, ?_,
    tokensRun_runs⟩
  · rw [attempts_append, attempts_loop]
    exact List.append_nil _
  · rw [spider_eq]
    exact (count_shape _ hmid _).1
  · rw [spider_eq]
    exact (count_shape _ hmid _).2
  · intro runs t start hperm
    rw [held_eq_sum, (hperm.map tokensDelta).sum_eq, sum_runs, add_zero]

/-- C9: when every dial of a host is unsuccessful on the six target ports and
    on ports 22 and 3389, `spider` sends the six port-closed errors, in the
    order of the table, and publishes one record, with that host, no results
    and both flags false; `printResult` prints a single dot for that record and
    writes nothing to the file. -/
theorem C9_all_closed (w : World) (ip : String)
    (hports : ∀ p ∈ targetPorts, (checkTCPPort w ip p.port).1 = false)
    (hssh : (checkTCPPort w ip 22).1 = false)
    (hrdp : (checkTCPPort w ip 3389).1 = false) :
    sentErrors (spider w ip) =
      targetPorts.map (fun p => ⟨ip ++ " :port " ++ Itoa p.port ++ " is closed"⟩) ∧
    (sentErrors (spider w ip)).length = 6 ∧
    published (spider w ip) =
      [{ Host := ip, isSSHOpen := false, isRDPOpen := false, Results := [] }] ∧
    printResult { Host := ip, isSSHOpen := false, isRDPOpen := false, Results := [] } =
      { console := ["."], file := [] } := by
  have he : ∀ ps : List PortSpec, (∀ p ∈ ps, (checkTCPPort w ip p.port).1 = false) →
      ps.flatMap (portErrors w ip) = ps.map (fun p => ⟨closedMsg ip p.port⟩) ∧
      ps.flatMap (portResults w ip) = [] := by
    intro ps
    induction ps with
    | nil => intro _; exact ⟨rfl, rfl⟩
    | cons p t ih =>
      intro hps
      have hp := portResults_closed w ip p (hps p (List.mem_cons_self _ _))
      have ht := ih (fun q hq => hps q (List.mem_cons_of_mem _ hq))
      rw [List.flatMap_cons, List.flatMap_cons, hp.1, hp.2, ht.1, ht.2]
      exact ⟨rfl, rfl⟩
  have h := he targetPorts hports
  refine ⟨?_, ?_, ?_, rfl⟩
  · rw [sentErrors_spider, h.1]; rfl
  · rw [sentErrors_spider, h.1, List.length_map]; rfl
  · rw [published_spider, h.2, hssh, hrdp]

/-- C9 at a concrete input: the first host of the sweep on a network that
    refuses every dial. -/
theorem C9_all_closed_witness :
    (∀ p ∈ targetPorts, (checkTCPPort closedWorld "23.96.1.1" p.port).1 = false) ∧
    (sentErrors (spider closedWorld "23.96.1.1")).length = 6 ∧
    published (spider closedWorld "23.96.1.1") =
      [{ Host := "23.96.1.1", isSSHOpen := false, isRDPOpen := false, Results := [] }] :=
  ⟨fun _ _ => rfl,
    (C9_all_closed closedWorld "23.96.1.1" (fun _ _ => rfl) rfl rfl).2.1,
    (C9_all_closed closedWorld "23.96.1.1" (fun _ _ => rfl) rfl rfl).2.2.1⟩

/-- C10: what `printResult` writes to the results file does not depend on the
    flags `isSSHOpen` and `isRDPOpen`: two records with the same `Host` and
    `Results` give the same writes and the same JSON text; with empty `Results`
    nothing is written; otherwise the one write is the JSON text, which is that
    of the record with both flags cleared. -/
theorem C10_file_ignores_flags (host : String) (results : List portResult)
    (ssh1 rdp1 ssh2 rdp2 : Bool) :
    (printResult { Host := host, isSSHOpen := ssh1, isRDPOpen := rdp1, Results := results }).file
      = (printResult
          { Host := host, isSSHOpen := ssh2, isRDPOpen := rdp2, Results := results }).file ∧
    jsonMarshal { Host := host, isSSHOpen := ssh1, isRDPOpen := rdp1, Results := results }
      = jsonMarshal { Host := host, isSSHOpen := ssh2, isRDPOpen := rdp2, Results := results } ∧
    (printResult { Host := host, isSSHOpen := ssh1, isRDPOpen := rdp1, Results := [] }).file
      = [] ∧
    (results ≠ [] →
      (printResult
          { Host := host, isSSHOpen := ssh1, isRDPOpen := rdp1, Results := results }).file
        = [(jsonMarshal
            { Host := host, isSSHOpen := false, isRDPOpen := false, Results := results }).1]) := by
  have key : ∀ s r : Bool, results ≠ [] →
      (printResult { Host := host, isSSHOpen := s, isRDPOpen := r, Results := results }).file
        = [(jsonMarshal
            { Host := host, isSSHOpen := false, isRDPOpen := false, Results := results }).1] := by
    intro s r hne
    have hl : ¬ results.length = 0 := fun h0 => hne (List.length_eq_zero.mp h0)
    unfold printResult
    rw [if_neg hl]
    rfl
  refine ⟨?_, rfl, rfl, key ssh1 rdp1⟩
  by_cases hr : results = []
  · subst hr; rfl
  · rw [key ssh1 rdp1 hr, key ssh2 rdp2 hr]

theorem foldl_titleEach (l : List Node) :
    ∀ r : portResult, l.foldl titleEach r =
      { r with Title := ((l.map Node.Text).getLast?).getD r.Title } := by
  induction l with
  | nil => intro r; rfl
  | cons a t ih =>
    intro r
    rw [List.foldl_cons, ih]
    cases t with
    | nil => rfl
    | cons b u =>
      simp only [List.map_cons, List.getLast?_cons_cons]
      cases h : (Node.Text b :: List.map Node.Text u).getLast? with
      | none => simp at h
      | some x => rfl

theorem foldl_bodyEach (l : List Node) :
    ∀ r : portResult, l.foldl bodyEach r =
      { r with BodySummary := ((l.map (fun n => normalise n.Text)).getLast?).getD r.BodySummary } := by
  induction l with
  | nil => intro r; rfl
  | cons a t ih =>
    intro r
    rw [List.foldl_cons, ih]
    cases t with
    | nil => rfl
    | cons b u =>
      simp only [List.map_cons, List.getLast?_cons_cons]
      cases h : (normalise (Node.Text b) :: List.map (fun n => normalise n.Text) u).getLast? with
      | none => simp at h
      | some x => rfl

/-- The value of `checkPage` after a successful fetch. -/
theorem checkPage_fetched (w : World) (url host : String) (port : Int) (req : Response)
    (doc : Document) (hopen : (checkTCPPort w host port).1 = true)
    (hget : w.Get url = .ok req) (hbody : req.Body = .ok doc) :
    (checkPage w url host port).1 =
      ({ Port := 0,
         Title := (((doc.Find "title").map Node.Text).getLast?).getD "",
         Protocol := "",
         Code := req.StatusCode,
         BodySummary :=
           (((doc.Find "body").map (fun n => normalise n.Text)).getLast?).getD "" }, none) := by
  unfold checkPage
  rcases hc : checkTCPPort w host port with ⟨o, t⟩
  rw [hc] at hopen
  simp only at hopen
  subst hopen
  simp only [Bool.not_true, Bool.false_eq_true, if_false, hget, hbody]
  rw [foldl_titleEach, foldl_bodyEach]
  rfl

/-- C5, as amended: after a successful fetch `checkPage` returns no error and
    the `Title` is the text of the last title element of the document in
    document order; it is the empty string when the document has no title
    element, and the text of the only title element when there is exactly
    one. -/
theorem C5_title_is_last (w : World) (url host : String) (port : Int) (req : Response)
    (doc : Document) (hopen : (checkTCPPort w host port).1 = true)
    (hget : w.Get url = .ok req) (hbody : req.Body = .ok doc) :
    (checkPage w url host port).1.2 = none ∧
    (checkPage w url host port).1.1.Title
      = (((doc.Find "title").map Node.Text).getLast?).getD "" ∧
    (doc.Find "title" = [] → (checkPage w url host port).1.1.Title = "") ∧
    (∀ n, doc.Find "title" = [n] → (checkPage w url host port).1.1.Title = n.Text) := by
  rw [checkPage_fetched w url host port req doc hopen hget hbody]
  refine ⟨rfl, rfl, ?_, ?_⟩
  · intro h; rw [h]; rfl
  · intro n h; rw [h]; rfl

/-- C5 as amended, at a concrete input: the page with the two titles "A" and
    "B" gives the title "B". -/
theorem C5_title_is_last_witness :
    (checkTCPPort twoTitlesWorld "h" 80).1 = true ∧
    (checkPage twoTitlesWorld "http://h:80" "h" 80).1.2 = none ∧
    (checkPage twoTitlesWorld "http://h:80" "h" 80).1.1.Title
      = (((twoTitlesDoc.Find "title").map Node.Text).getLast?).getD "" :=
  ⟨rfl,
    (C5_title_is_last twoTitlesWorld "http://h:80" "h" 80 ⟨200, .ok twoTitlesDoc⟩ twoTitlesDoc
      rfl rfl rfl).1,
    (C5_title_is_last twoTitlesWorld "http://h:80" "h" 80 ⟨200, .ok twoTitlesDoc⟩ twoTitlesDoc
      rfl rfl rfl).2.1⟩

/-- C5 as stated fails: on a fetched page whose title elements have the texts
    "A" and "B", in this order, `checkPage` returns the title "B", not the text
    of the first title element. -/
theorem C5_first_title_counterexample :
    (checkTCPPort twoTitlesWorld "h" 80).1 = true ∧
    (twoTitlesDoc.Find "title").map Node.Text = ["A", "B"] ∧
    (checkPage twoTitlesWorld "http://h:80" "h" 80).1.2 = none ∧
    (checkPage twoTitlesWorld "http://h:80" "h" 80).1.1.Title = "B" ∧
    (checkPage twoTitlesWorld "http://h:80" "h" 80).1.1.Title
      ≠ (((twoTitlesDoc.Find "title").map Node.Text).head?).getD "" := by
  refine ⟨rfl, by decide, rfl, by decide, by decide⟩

theorem targetPorts_flatMap {α : Type} (f : PortSpec → List α) :
    targetPorts.flatMap f =
      f ⟨80, false⟩ ++ (f ⟨443, true⟩ ++ (f ⟨8080, false⟩ ++ (f ⟨8443, true⟩
        ++ (f ⟨8000, false⟩ ++ f ⟨1080, false⟩)))) := by
  simp [targetPorts]

theorem targetURL_80 (host : String) :
    targetURL host ⟨80, false⟩ = "http://" ++ host ++ ":80" := by
  have : Itoa 80 = "80" := by decide
  simp only [targetURL, this, Bool.false_eq_true, if_false]
  rw [String.append_assoc ("http://" ++ host) ":" "80"]
  rfl

/-- C4, as amended: a host whose port 80 is open and serves a page with one
    title element of text "X" and one body element whose text is two spaces, a,
    a tab, b, a newline, a space, c, a space, all other target ports being
    closed, gets one published record whose `Results` is the single
    `portResult` with port 80, protocol "http", title "X", the status code of
    the response and the body summary "ab c"; and exactly the five port-closed
    errors of the other ports are sent, in the order of the table. -/
theorem C4_scenario_port_80 (w : World) (host : String) (code : Int) (doc : Document)
    (hopen : (checkTCPPort w host 80).1 = true)
    (hget : w.Get ("http://" ++ host ++ ":80") = .ok ⟨code, .ok doc⟩)
    (htitle : (doc.Find "title").map Node.Text = ["X"])
    (hbody : (doc.Find "body").map Node.Text = ["  a\tb\n c "])
    (hclosed : ∀ p ∈ targetPorts, p.port ≠ 80 → (checkTCPPort w host p.port).1 = false) :
    published (spider w host) =
      [{ Host := host, isSSHOpen := (checkTCPPort w host 22).1,
         isRDPOpen := (checkTCPPort w host 3389).1,
         Results := [{ Port := 80, Title := "X", Protocol := "http", Code := code,
                       BodySummary := "ab c" }] }] ∧
    sentErrors (spider w host) =
      [⟨closedMsg host 443⟩, ⟨closedMsg host 8080⟩, ⟨closedMsg host 8443⟩,
       ⟨closedMsg host 8000⟩, ⟨closedMsg host 1080⟩] := by
  have hb : (doc.Find "body").map (fun n => normalise n.Text) = ["ab c"] := by
    have : (doc.Find "body").map (fun n => normalise n.Text)
        = ((doc.Find "body").map Node.Text).map normalise := by
      rw [List.map_map]; rfl
    rw [this, hbody]
    decide
  have hpage := checkPage_fetched w ("http://" ++ host ++ ":80") host 80 ⟨code, .ok doc⟩ doc
    hopen hget rfl
  rw [htitle, hb] at hpage
  have h80 : portResults w host ⟨80, false⟩ =
      [{ Port := 80, Title := "X", Protocol := "http", Code := code, BodySummary := "ab c" }]
      ∧ portErrors w host ⟨80, false⟩ = [] := by
    unfold portResults portErrors
    rw [targetURL_80, hpage]
    exact ⟨rfl, rfl⟩
  have c1 := portResults_closed w host ⟨443, true⟩ (hclosed _ (by decide) (by decide))
  have c2 := portResults_closed w host ⟨8080, false⟩ (hclosed _ (by decide) (by decide))
  have c3 := portResults_closed w host ⟨8443, true⟩ (hclosed _ (by decide) (by decide))
  have c4 := portResults_closed w host ⟨8000, false⟩ (hclosed _ (by decide) (by decide))
  have c5 := portResults_closed w host ⟨1080, false⟩ (hclosed _ (by decide) (by decide))
  constructor
  · rw [published_spider, targetPorts_flatMap, h80.1, c1.1, c2.1, c3.1, c4.1, c5.1]
    rfl
  · rw [sentErrors_spider, targetPorts_flatMap, h80.2, c1.2, c2.2, c3.2, c4.2, c5.2]
    rfl

/-- C4 as amended, at a concrete input: the host "h" of `pageWorld`. -/
theorem C4_scenario_port_80_witness :
    (checkTCPPort pageWorld "h" 80).1 = true ∧
    (∀ p ∈ targetPorts, p.port ≠ 80 → (checkTCPPort pageWorld "h" p.port).1 = false) ∧
    published (spider pageWorld "h") =
      [{ Host := "h", isSSHOpen := (checkTCPPort pageWorld "h" 22).1,
         isRDPOpen := (checkTCPPort pageWorld "h" 3389).1,
         Results := [{ Port := 80, Title := "X", Protocol := "http", Code := 200,
                       BodySummary := "ab c" }] }] :=
  ⟨by decide, by decide,
    (C4_scenario_port_80 pageWorld "h" 200 pageDoc (by decide) rfl (by decide) (by decide)
      (by decide)).1⟩

/-- C4 as stated fails: on the host "h" of `pageWorld`, which meets the
    conditions of the scenario, the published record does not have the body
    summary "a b c"; the summary is "ab c", and the five errors are sent. -/
theorem C4_body_summary_counterexample :
    (checkTCPPort pageWorld "h" 80).1 = true ∧
    (pageDoc.Find "title").map Node.Text = ["X"] ∧
    (pageDoc.Find "body").map Node.Text = ["  a\tb\n c "] ∧
    (∀ p ∈ targetPorts, p.port ≠ 80 → (checkTCPPort pageWorld "h" p.port).1 = false) ∧
    (sentErrors (spider pageWorld "h")).length = 5 ∧
    (published (spider pageWorld "h")).map (fun hr => hr.Results.map (fun r => r.BodySummary))
      = [["ab c"]] ∧
    ¬ ∃ hr r, published (spider pageWorld "h") = [hr] ∧ hr.Results = [r] ∧ r.Port = 80 ∧
        r.Protocol = "http" ∧ r.Title = "X" ∧ r.BodySummary = "a b c" := by
  have hp : published (spider pageWorld "h") =
      [{ Host := "h", isSSHOpen := false, isRDPOpen := false,
         Results := [{ Port := 80, Title := "X", Protocol := "http", Code := 200,
                       BodySummary := "ab c" }] }] := by decide
  refine ⟨by decide, by decide, by decide, by decide, by decide, ?_, ?_⟩
  · rw [hp]; rfl
  · rintro ⟨hr, r, h1, h2, _, _, _, h6⟩
    rw [hp] at h1
    have := List.singleton_inj.mp h1
    subst this
    have := List.singleton_inj.mp h2
    subst this
    exact absurd h6 (by decide)

/-! ## Decimal numerals -/

theorem digitChar_inj (a b : Nat) (ha : a < 10) (hb : b < 10)
    (h : Nat.digitChar a = Nat.digitChar b) : a = b := by
  interval_cases a <;> interval_cases b <;> first | rfl | exact absurd h (by decide)

theorem digitChar_ne_dot (a : Nat) (ha : a < 10) : Nat.digitChar a ≠ '.' := by
  interval_cases a <;> decide

theorem toDigitsCore_eq (fuel : Nat) :
    ∀ (n : Nat) (ds : List Char), n < fuel →
      Nat.toDigitsCore 10 fuel n ds =
        (if n = 0 then [0] else (Nat.digits 10 n).reverse).map Nat.digitChar ++ ds := by
  induction fuel with
  | zero => intro n ds h; exact absurd h (Nat.not_lt_zero _)
  | succ fuel ih =>
    intro n ds h
    rw [Nat.toDigitsCore]
    by_cases h0 : n / 10 = 0
    · simp only [h0, if_true]
      have hlt : n < 10 := by omega
      by_cases hn : n = 0
      · subst hn; rfl
      · rw [if_neg hn, Nat.digits_of_lt 10 n hn hlt, Nat.mod_eq_of_lt hlt]
        rfl
    · simp only [h0, if_false]
      have hn : n ≠ 0 := by rintro rfl; exact h0 rfl
      have hpos : 0 < n := Nat.pos_of_ne_zero hn
      rw [ih (n / 10) _ (by omega), if_neg h0, if_neg hn,
        Nat.digits_def' (by decide : 1 < 10) hpos]
      simp

theorem toDigits_eq (n : Nat) :
    Nat.toDigits 10 n =
      (if n = 0 then [0] else (Nat.digits 10 n).reverse).map Nat.digitChar := by
  rw [Nat.toDigits, toDigitsCore_eq (n + 1) n [] (Nat.lt_succ_self n), List.append_nil]

theorem decimal_lt (n : Nat) :
    ∀ d ∈ (if n = 0 then [0] else (Nat.digits 10 n).reverse), d < 10 := by
  intro d hd
  split at hd
  · rw [List.mem_singleton.mp hd]; decide
  · exact Nat.digits_lt_base (by decide) (List.mem_reverse.mp hd)

theorem decimal_inj (n m : Nat)
    (h : (if n = 0 then [0] else (Nat.digits 10 n).reverse)
       = (if m = 0 then [0] else (Nat.digits 10 m).reverse)) : n = m := by
  have key : ∀ k : Nat, k ≠ 0 → (Nat.digits 10 k).reverse ≠ [0] := by
    intro k hk hrev
    have h1 : Nat.digits 10 k = [0] := by
      have := congrArg List.reverse hrev
      simpa using this
    have h2 := Nat.getLast_digit_ne_zero 10 hk
    simp [h1] at h2
  by_cases hn : n = 0 <;> by_cases hm : m = 0
  · rw [hn, hm]
  · rw [if_pos hn, if_neg hm] at h
    exact absurd h.symm (key m hm)
  · rw [if_neg hn, if_pos hm] at h
    exact absurd h (key n hn)
  · rw [if_neg hn, if_neg hm] at h
    exact Nat.digits.injective 10 (List.reverse_injective h)

theorem toDigits_inj (n m : Nat) (h : Nat.toDigits 10 n = Nat.toDigits 10 m) : n = m := by
  rw [toDigits_eq, toDigits_eq] at h
  apply decimal_inj
  have hn := decimal_lt n
  have hm := decimal_lt m
  generalize (if n = 0 then [0] else (Nat.digits 10 n).reverse) = a at h hn ⊢
  generalize (if m = 0 then [0] else (Nat.digits 10 m).reverse) = b at h hm ⊢
  induction a generalizing b with
  | nil =>
    cases b with
    | nil => rfl
    | cons y t => simp at h
  | cons x s ih =>
    cases b with
    | nil => simp at h
    | cons y t =>
      simp only [List.map_cons, List.cons.injEq] at h
      have e1 := digitChar_inj x y (hn x (by simp)) (hm y (by simp)) h.1
      have e2 := ih (fun d hd => hn d (by simp [hd])) t h.2 (fun d hd => hm d (by simp [hd]))
      rw [e1, e2]

theorem dot_not_mem_toDigits (n : Nat) : '.' ∉ Nat.toDigits 10 n := by
  rw [toDigits_eq]
  intro h
  obtain ⟨d, hd, he⟩ := List.mem_map.mp h
  exact digitChar_ne_dot d (decimal_lt n d hd) he

theorem toString_data (n : Nat) : (toString n).data = Nat.toDigits 10 n := rfl

/-! ## The hosts of the sweep -/

/-- The address that `main` builds determines the counters `i` and `j`. -/
theorem address_inj (i j i2 j2 : Nat)
    (h : "23.96." ++ toString i ++ "." ++ toString j
       = "23.96." ++ toString i2 ++ "." ++ toString j2) : i = i2 ∧ j = j2 := by
  have hd := congrArg String.data h
  simp only [String.data_append, toString_data, List.append_assoc] at hd
  have hd2 := List.append_cancel_left hd
  rw [List.singleton_append, List.singleton_append] at hd2
  have := (List.append_cons_inj_of_not_mem (dot_not_mem_toDigits i)
    (dot_not_mem_toDigits j)).mp hd2
  exact ⟨toDigits_inj i i2 this.1, toDigits_inj j j2 this.2.2⟩

theorem flatMap_range {α : Type} (g : Nat → Nat → α) (b m : Nat) (hm : 0 < m) :
    ∀ n a : Nat, (List.range' a n).flatMap (fun i => (List.range' b m).map (g i)) =
      (List.range (n * m)).map (fun k => g (a + k / m) (b + k % m)) := by
  intro n
  induction n with
  | zero => intro a; simp
  | succ n ih =>
    intro a
    have e : (n + 1) * m = m + n * m := by ring
    rw [List.range'_succ, List.flatMap_cons, ih, e, List.range_add, List.map_append,
      List.map_map, List.range'_eq_map_range, List.map_map]
    congr 1
    · apply List.map_congr_left
      intro k hk
      have hk : k < m := List.mem_range.mp hk
      simp [Nat.div_eq_of_lt hk, Nat.mod_eq_of_lt hk]
    · apply List.map_congr_left
      intro k _
      simp only [Function.comp]
      have h1 : (m + k) / m = 1 + k / m := by
        rw [Nat.add_div_left _ hm]; omega
      have h2 : (m + k) % m = k % m := Nat.add_mod_left m k
      rw [h1, h2, Nat.add_assoc]

theorem mainHosts_eq :
    mainHosts = (List.range (254 * 254)).map (fun k =>
      "23.96." ++ toString (1 + k / 254) ++ "." ++ toString (1 + k % 254)) := by
  have hI : List.Ico 1 255 = List.range' 1 254 := rfl
  unfold mainHosts
  rw [hI]
  exact flatMap_range (fun i j => "23.96." ++ toString i ++ "." ++ toString j) 1 254
    (by decide) 254 1

theorem mainHosts_index (i j : Nat) (hi1 : 1 ≤ i) (hi2 : i ≤ 254) (hj1 : 1 ≤ j)
    (hj2 : j ≤ 254) :
    mainHosts[(i - 1) * 254 + (j - 1)]? =
      some ("23.96." ++ toString i ++ "." ++ toString j) := by
  have hk : (i - 1) * 254 + (j - 1) < 254 * 254 := by
    have : (i - 1) * 254 ≤ 253 * 254 := Nat.mul_le_mul_right _ (by omega)
    omega
  have hdiv : ((i - 1) * 254 + (j - 1)) / 254 = i - 1 := by
    rw [Nat.add_comm, Nat.add_mul_div_right _ _ (by decide : 0 < 254),
      Nat.div_eq_of_lt (by omega)]
    omega
  have hmod : ((i - 1) * 254 + (j - 1)) % 254 = j - 1 := by
    rw [Nat.add_comm, Nat.add_mul_mod_self_right, Nat.mod_eq_of_lt (by omega)]
  rw [mainHosts_eq, List.getElem?_map, List.getElem?_range hk, Option.map_some', hdiv, hmod]
  have e1 : 1 + (i - 1) = i := by omega
  have e2 : 1 + (j - 1) = j := by omega
  rw [e1, e2]

theorem mainHosts_mem (a : String) :
    a ∈ mainHosts ↔ ∃ i j, 1 ≤ i ∧ i ≤ 254 ∧ 1 ≤ j ∧ j ≤ 254 ∧
      a = "23.96." ++ toString i ++ "." ++ toString j := by
  constructor
  · intro h
    rw [mainHosts_eq] at h
    obtain ⟨k, hk, rfl⟩ := List.mem_map.mp h
    have hk : k < 254 * 254 := List.mem_range.mp hk
    have h1 : k / 254 < 254 := Nat.div_lt_of_lt_mul hk
    have h2 : k % 254 < 254 := Nat.mod_lt _ (by decide)
    exact ⟨1 + k / 254, 1 + k % 254, by omega, by omega, by omega, by omega, rfl⟩
  · rintro ⟨i, j, hi1, hi2, hj1, hj2, rfl⟩
    exact List.getElem?_mem (mainHosts_index i j hi1 hi2 hj1 hj2)

theorem mainHosts_nodup : mainHosts.Nodup := by
  rw [mainHosts_eq]
  apply List.Nodup.map_on _ (List.nodup_range _)
  intro x _ y _ h
  have := address_inj _ _ _ _ h
  have hx := Nat.div_add_mod x 254
  have hy := Nat.div_add_mod y 254
  omega

/-- C8: `main` hands to `spider` exactly 254 * 254 = 64516 addresses; the one
    at position (i - 1) * 254 + (j - 1), for i and j from 1 to 254, is "23.96."
    followed by i, a dot and j in decimal, so the addresses are ordered by i
    and then j; the addresses are exactly these strings, no two positions hold
    the same one, and each occurs exactly once. -/
theorem C8_host_enumeration :
    mainHosts.length = 254 * 254 ∧
    mainHosts.length = 64516 ∧
    (∀ i j : Nat, 1 ≤ i → i ≤ 254 → 1 ≤ j → j ≤ 254 →
      mainHosts[(i - 1) * 254 + (j - 1)]? =
        some ("23.96." ++ toString i ++ "." ++ toString j)) ∧
    (∀ a : String, a ∈ mainHosts ↔ ∃ i j, 1 ≤ i ∧ i ≤ 254 ∧ 1 ≤ j ∧ j ≤ 254 ∧
      a = "23.96." ++ toString i ++ "." ++ toString j) ∧
    mainHosts.Nodup ∧
    (∀ i j : Nat, 1 ≤ i → i ≤ 254 → 1 ≤ j → j ≤ 254 →
      mainHosts.count ("23.96." ++ toString i ++ "." ++ toString j) = 1) := by
  have hlen : mainHosts.length = 254 * 254 := by
    rw [mainHosts_eq, List.length_map, List.length_range]
  refine ⟨hlen, hlen, mainHosts_index, mainHosts_mem, mainHosts_nodup, ?_⟩
  intro i j hi1 hi2 hj1 hj2
  exact List.count_eq_one_of_mem mainHosts_nodup
    ((mainHosts_mem _).mpr ⟨i, j, hi1, hi2, hj1, hj2, rfl⟩)

end Urlscan
